import Mathlib

/-!
Verification of the EOSIO block log (`block_log.cpp`) against its
natural-language specification.  The C++ source is shallowly embedded:
files are byte lists (`List Nat`, little-endian multi-byte reads),
machine integers are `Nat` with explicit `% 2^32` wraparound where the
source does 32-bit arithmetic, exceptions are `Except`/`Option`, and the
chain-layer types (`signed_block`, `genesis_state`, serialization) that
the source treats as opaque are parameters or abstracted payloads.
-/

namespace BlockLogSpec

/-! ## Byte-level primitives

`read_buffer<T>` in the source memcpys from a memory-mapped file; we model
the file as a byte list.  Reads beyond the end of the list yield 0
(the source would read unmapped garbage there); every theorem below only
exercises in-bounds reads unless explicitly modelling a failure.
-/

/-- Byte at offset `i` of a file, 0 when out of range. -/
def readByteD (d : List Nat) (i : Nat) : Nat := (d.get? i).getD 0

/-- Little-endian `uint32_t` read at offset `i` (`read_buffer<uint32_t>`). -/
def readU32LE (d : List Nat) (i : Nat) : Nat :=
  readByteD d i + 256 * readByteD d (i + 1) + 256 ^ 2 * readByteD d (i + 2) +
    256 ^ 3 * readByteD d (i + 3)

/-- Little-endian `uint64_t` read at offset `i` (`read_buffer<uint64_t>`). -/
def readU64LE (d : List Nat) (i : Nat) : Nat :=
  readU32LE d i + 2 ^ 32 * readU32LE d (i + 4)

/-- Big-endian `uint32_t` read at offset `i`: the source reads little-endian
and applies `fc::endian_reverse_u32`. -/
def readU32BE (d : List Nat) (i : Nat) : Nat :=
  256 ^ 3 * readByteD d i + 256 ^ 2 * readByteD d (i + 1) + 256 * readByteD d (i + 2) +
    readByteD d (i + 3)

/-- Little-endian encoding of a `uint64_t` value (8 bytes). -/
def u64le (n : Nat) : List Nat :=
  [n % 256, n / 256 % 256, n / 256 ^ 2 % 256, n / 256 ^ 3 % 256,
   n / 256 ^ 4 % 256, n / 256 ^ 5 % 256, n / 256 ^ 6 % 256, n / 256 ^ 7 % 256]

/-- `uint32_t` subtraction `a - b` with wraparound, as the source's
`b->block_num() - preamble.first_block_num` computes it. -/
def u32sub (a b : Nat) : Nat := (a % 2 ^ 32 + 2 ^ 32 - b % 2 ^ 32) % 2 ^ 32

/-! ## Version constants (enum `versions` and `block_log` statics) -/

def initial_version : Nat := 1
def block_x_start_version : Nat := 2
def genesis_state_or_chain_id_version : Nat := 3
def pruned_transaction_version : Nat := 4
def min_supported_version : Nat := initial_version
def max_supported_version : Nat := pruned_transaction_version

/-- `block_log::npos = std::numeric_limits<uint64_t>::max()`. -/
def npos : Nat := 18446744073709551615

/-- `offset_to_block_start(version)`: `sizeof(uint32_t) + 1` for v4+, else 0. -/
def offset_to_block_start (version : Nat) : Nat :=
  if pruned_transaction_version ≤ version then 4 + 1 else 0

/-- The error kinds raised by the embedded operations.  The C++ source throws
`block_log_exception` subclasses; the spec names the variants. -/
inductive BLErr where
  | unsupportedVersion
  | malformedPreamble
  | malformedEntry
  | appendBeforeReset
  | indexDesync
  | streamError
  deriving DecidableEq

/-! ## Preamble chain-context decoding (C5)

`block_log_preamble::read_from` keeps only the decisions relevant to the
claim: version support checks and which chain-context variant is decoded.
The genesis-state / chain-id payloads are chain-layer values, kept opaque.
-/

/-- `std::clamp(v, lo, hi)`. -/
def clampNat (v lo hi : Nat) : Nat := if v < lo then lo else if hi < v then hi else v

/-- `block_log::is_supported_version`. -/
def is_supported_version (version : Nat) : Bool :=
  clampNat version min_supported_version max_supported_version == version

/-- `block_log::contains_genesis_state`. -/
def contains_genesis_state (version first_block_num : Nat) : Bool :=
  decide (version < genesis_state_or_chain_id_version) || decide (first_block_num = 1)

/-- `block_log::contains_chain_id`. -/
def contains_chain_id (version first_block_num : Nat) : Bool :=
  decide (genesis_state_or_chain_id_version ≤ version) && decide (1 < first_block_num)

/-- Which chain-context variant a preamble holds (payloads abstracted). -/
inductive ChainCtxKind where
  | genesisState
  | chainId
  deriving DecidableEq

/-- The chain-context decision of `block_log_preamble::read_from`: version
sanity checks, then `contains_genesis_state` / `contains_chain_id`, else the
"does not contain a genesis_state nor a chain_id" failure. -/
def read_chain_context (version first_block_num : Nat) : Except BLErr ChainCtxKind :=
  if version = 0 then .error .malformedPreamble
  else if ¬ is_supported_version version then .error .unsupportedVersion
  else if contains_genesis_state version first_block_num then .ok .genesisState
  else if contains_chain_id version first_block_num then .ok .chainId
  else .error .malformedPreamble

/-- Modelled from the claim's words (used only to exhibit the divergence for
claim C5): Genesis for v1, Genesis for v≥2 with first=1, ChainId for v≥3 with
first>1, otherwise MalformedPreamble. -/
def read_chain_context_claim (version first_block_num : Nat) : Except BLErr ChainCtxKind :=
  if version = 1 then .ok .genesisState
  else if 2 ≤ version ∧ first_block_num = 1 then .ok .genesisState
  else if 3 ≤ version ∧ 1 < first_block_num then .ok .chainId
  else .error .malformedPreamble

/-! ## `block_log_data`: read-only view of a log file

The preamble has already been parsed when the view is used, so the view
carries the parsed fields plus the raw bytes, exactly the state
`block_log_data` holds (`file`, `preamble`, `first_block_pos`).
-/

structure BlockLogData where
  data : List Nat
  version : Nat
  first_block_num : Nat
  first_block_pos : Nat
  deriving DecidableEq

/-- `block_log_data::last_block_position()`: `uint64_t` in the last 8 bytes. -/
def last_block_position (d : BlockLogData) : Nat :=
  readU64LE d.data (d.data.length - 8)

/-- `block_log_data::block_num_at(position)`: assert `position <= size`
(throwing, hence `none`), then read the big-endian previous-block number at
byte offset `position + 14 + offset_to_block_start(version)` and add 1. -/
def block_num_at (d : BlockLogData) (position : Nat) : Option Nat :=
  if position ≤ d.data.length then
    some (readU32BE d.data (position + 14 + offset_to_block_start d.version) + 1)
  else none

/-- `block_log_data::last_block_num()`. -/
def last_block_num (d : BlockLogData) : Option Nat :=
  block_num_at d (last_block_position d)

/-- `block_log_data::num_blocks()`: 0 for a log with no entries, else
`last_block_num - first_block_num + 1`; `none` models the assertion throw
inside `block_num_at`. -/
def num_blocks (d : BlockLogData) : Option Nat :=
  if d.first_block_pos = d.data.length then some 0
  else (last_block_num d).map (fun l => l - d.first_block_num + 1)

/-- `block_log_data::light_validate_block_entry_at(pos, expected_block_num)`
as a Bool: `false` models the thrown `block_log_exception` (its callers catch
it).  Checks the derived block number, and on v4+ that the trailing 8 bytes of
the entry hold the entry's own position. -/
def light_validate_block_entry_at (d : BlockLogData) (pos expected_block_num : Nat) : Bool :=
  match block_num_at d pos with
  | none => false
  | some actual =>
    if actual ≠ expected_block_num then false
    else if pruned_transaction_version ≤ d.version then
      let entry_size := readU32LE d.data pos
      decide (pos = readU64LE d.data (pos + entry_size - 8))
    else true

/-! ## `block_log_catalog::index_matches_data` (C1)

The index file is `Option (List Nat)` (`none` = file does not exist); `none`
as a result models an uncaught exception from `num_blocks`.
-/

/-- `block_log_catalog::index_matches_data(index_path, log)`, byte-faithful:
note the source tests `file_size(index_path) / 8 != log.num_blocks()` (not
`==`) before comparing the trailing 8 bytes. -/
def index_matches_data (idx : Option (List Nat)) (log : BlockLogData) : Option Bool :=
  match idx with
  | none => some false
  | some bytes =>
    match num_blocks log with
    | none => none
    | some nb =>
      if bytes.length / 8 ≠ nb then
        some (decide (readU64LE bytes (bytes.length - 8) = last_block_position log))
      else some false

/-! ## A concrete one-block v4 log used by the C1 and C8 instances

Layout: 10 preamble bytes, then one v4 entry at position 10 of 31 bytes:
`size = 31` (u32), compression 0, header bytes whose offsets 19..22 from the
entry start big-endian-encode previous-block number 4 (so the block number is
5), and the trailing back-pointer 10.  `first_block_num = 5`, so the log holds
exactly one block, number 5.
-/

def dataOne : List Nat :=
  [0, 0, 0, 0, 0, 0, 0, 0, 0, 0] ++
  [31, 0, 0, 0] ++ [0] ++
  [0, 0, 0, 0, 0, 0, 0, 0, 0, 0, 0, 0, 0, 0] ++
  [0, 0, 0, 4] ++
  [10, 0, 0, 0, 0, 0, 0, 0]

def logOne : BlockLogData :=
  { data := dataOne, version := 4, first_block_num := 5, first_block_pos := 10 }

/-- An index file of exactly one slot holding `10 = last_block_position logOne`:
a fully consistent index for `logOne`. -/
def idxOne : List Nat := [10, 0, 0, 0, 0, 0, 0, 0]

/-- `logOne` with three trailing garbage bytes: an incomplete next entry. -/
def logTrim : BlockLogData :=
  { data := dataOne ++ [5, 5, 5], version := 4, first_block_num := 5, first_block_pos := 10 }

/-! ## `block_log_impl::recover_from_incomplete_block_head` (C4)

The index view (`block_log_index`) is a packed `uint64_t` array; we carry it
as the list of positions.  The result is `(returned bool, resulting log file
size)`: the file is resized only on the success path.
-/

def recover_from_incomplete_block_head (d : BlockLogData) (index : List Nat) :
    Bool × Nat :=
  let sz := d.data.length
  if pruned_transaction_version ≤ d.version then
    let back := index.getLastD 0
    if back + 4 < sz then
      let entry_size := readU32LE d.data back
      let trimmed_block_file_size := back + entry_size
      let expected_block_num := d.first_block_num + index.length - 1
      if trimmed_block_file_size < sz then
        if light_validate_block_entry_at d back expected_block_num then
          (true, trimmed_block_file_size)
        else (false, sz)
      else (false, sz)
    else (false, sz)
  else (false, sz)

/-! ## `block_log::trim_blocklog_end` (C8)

`block_log_archive` has already checked `log.num_blocks() == index.num_blocks()`
(theorem hypothesis).  The result is `(status, log file size, index file size)`;
`none` models the out-of-bounds `nth_block_position` read (the source
dereferences one slot past the mapped index file). -/

def trim_blocklog_end (d : BlockLogData) (index : List Nat) (n : Nat) :
    Option (Nat × Nat × Nat) :=
  match last_block_num d with
  | none => none
  | some last =>
    if n < d.first_block_num then some (1, d.data.length, 8 * index.length)
    else if last < n then some (2, d.data.length, 8 * index.length)
    else
      let to_trim_block_index := n + 1 - d.first_block_num
      match index.get? to_trim_block_index with
      | some to_trim_block_position =>
        some (0, to_trim_block_position, 8 * to_trim_block_index)
      | none => none

/-! ## v4 entry decoding (C6)

An `fc::datastream<const char*>` is a byte buffer plus a cursor; its `read` and
`skip` bounds-check and throw (`streamError` here).  The decode of the
`signed_block` body is a chain-layer operation, so `unpack_log_entry_v4_meta`
takes it as a parameter that advances the stream. -/

structure ByteStream where
  data : List Nat
  pos : Nat
  deriving DecidableEq

/-- `fc::raw::unpack` of a `uint8_t`. -/
def bsReadU8 (s : ByteStream) : Option (Nat × ByteStream) :=
  match s.data.get? s.pos with
  | some b => some (b, ⟨s.data, s.pos + 1⟩)
  | none => none

/-- `fc::raw::unpack` of a `uint32_t` (little-endian). -/
def bsReadU32 (s : ByteStream) : Option (Nat × ByteStream) :=
  if s.pos + 4 ≤ s.data.length then some (readU32LE s.data s.pos, ⟨s.data, s.pos + 4⟩)
  else none

/-- `datastream::skip`. -/
def bsSkip (s : ByteStream) (n : Nat) : Option ByteStream :=
  if s.pos + n ≤ s.data.length then some ⟨s.data, s.pos + n⟩ else none

/-- `log_entry_v4::metadata_type`. -/
structure MetaV4 where
  compression : Nat
  size : Nat
  deriving DecidableEq

/-- `packed_transaction::cf_compression_type::none` (chain layer: 0). -/
def cf_compression_none : Nat := 0

/-- `packed_transaction::cf_compression_type::COMPRESSION_TYPE_COUNT`
(chain layer: the enum holds `none` and `zlib`). -/
def cf_compression_type_count : Nat := 2

/-- The v4 metadata `unpack(Stream&, signed_block&)`: read `size` (u32) and
`compression` (u8), reject unknown and non-`none` compression, decode the
block (`block.unpack`, the `blockUnpack` parameter), then skip
`size - 8 - consumed` bytes, failing when that `int64_t` is negative. -/
def unpack_log_entry_v4_meta (blockUnpack : ByteStream → Except BLErr ByteStream)
    (s : ByteStream) : Except BLErr (MetaV4 × ByteStream) :=
  let start_pos := s.pos
  match bsReadU32 s with
  | none => .error .streamError
  | some (size, s1) =>
    match bsReadU8 s1 with
    | none => .error .streamError
    | some (compression, s2) =>
      if cf_compression_type_count ≤ compression then .error .malformedEntry
      else if compression ≠ cf_compression_none then .error .malformedEntry
      else
        match blockUnpack s2 with
        | .error e => .error e
        | .ok s3 =>
          let current_stream_offset := s3.pos - start_pos
          let bytes_to_skip : Int := (size : Int) - 8 - (current_stream_offset : Int)
          if bytes_to_skip < 0 then .error .malformedEntry
          else
            match bsSkip s3 bytes_to_skip.toNat with
            | none => .error .streamError
            | some s4 => .ok (⟨compression, size⟩, s4)

/-! ## `block_log::prune_transactions` (C2)

A transaction receipt's `trx` is `variant<transaction_id_type,
packed_transaction>`; transaction ids are abstract (`Nat`), and the only
observable pruning affects is the presence of prunable (context-free) data.
`prune_all` drops that data and keeps the id.  The in-place rewrite of the
entry is modelled at the byte level by `writeAt`. -/

structure PackedTx where
  id : Nat
  hasPrunableData : Bool
  deriving DecidableEq

inductive TrxReceipt where
  | txid (id : Nat)
  | packed (tx : PackedTx)
  deriving DecidableEq

/-- `packed_transaction::prune_all()`: removes prunable data; the transaction
id is unchanged. -/
def pruneAll (tx : PackedTx) : PackedTx := { tx with hasPrunableData := false }

/-- The ids of the `packed_transaction` receipts of a block, in order. -/
def packedIds : List TrxReceipt → List Nat
  | [] => []
  | .txid _ :: rest => packedIds rest
  | .packed tx :: rest => tx.id :: packedIds rest

/-- The visitation loop of `prune_transactions`: for each receipt holding a
`packed_transaction` whose id is found in `ids` (`std::find`), prune it,
erase that id from `ids`, and count it.  Returns the rewritten receipts, the
remaining ids, and `num_trx_pruned`. -/
def prunePass : List TrxReceipt → List Nat → List TrxReceipt × List Nat × Nat
  | [], ids => ([], ids, 0)
  | .txid t :: rest, ids =>
    let p := prunePass rest ids
    (.txid t :: p.1, p.2.1, p.2.2)
  | .packed tx :: rest, ids =>
    if tx.id ∈ ids then
      let p := prunePass rest (ids.erase tx.id)
      (.packed (pruneAll tx) :: p.1, p.2.1, p.2.2 + 1)
    else
      let p := prunePass rest ids
      (.packed tx :: p.1, p.2.1, p.2.2)

/-- Positional overwrite of `buf.length` bytes of `file` at offset `off`
(`seek(off)` followed by `write(buf)`). -/
def writeAt (file : List Nat) (off : Nat) (buf : List Nat) : List Nat :=
  file.take off ++ buf ++ file.drop (off + buf.length)

structure PruneResult where
  count : Nat
  file : List Nat
  ids : List Nat
  block : List TrxReceipt
  deriving DecidableEq

/-- `block_log::prune_transactions(block_num, ids)` on an entry that has been
located at `pos` and decoded into `block` (the chain-layer decode of the
stored bytes).  Requires v4; prunes; when anything was pruned, re-packs the
block into a buffer of `entry.meta.size - offset_to_block_start - 8` bytes
(`packBlock`, the chain-layer serializer, padding included) and writes it at
`pos + offset_to_block_start`. -/
def prune_transactions (ver : Nat) (file : List Nat) (pos entry_size : Nat)
    (block : List TrxReceipt) (ids : List Nat)
    (packBlock : List TrxReceipt → Nat → List Nat) : Except BLErr PruneResult :=
  if ver < pruned_transaction_version then .error .unsupportedVersion
  else
    let p := prunePass block ids
    if 0 < p.2.2 then
      let block_offset := offset_to_block_start ver
      let max_block_size := entry_size - block_offset - 8
      let buffer := packBlock p.1 max_block_size
      .ok ⟨p.2.2, writeAt file (pos + block_offset) buffer, p.2.1, p.1⟩
    else .ok ⟨p.2.2, file, p.2.1, p.1⟩

/-! ## The log store (`block_log_impl`) and catalog state (C3, C7, C9, C10)

The preamble's chain context is carried as its variant kind; the serialized
forms of the preamble and of block entries are chain-layer byte strings and
appear as parameters (`encPre`, `entryBytes`). -/

structure Preamble where
  version : Nat
  first_block_num : Nat
  chain_context : ChainCtxKind
  deriving DecidableEq

/-- One entry of `block_log_catalog::collection_t` (flat_map key plus
`mapped_type`): kept as a list sorted by `first`, which `add`'s monotonicity
precondition guarantees. -/
structure CatItem where
  first : Nat
  last : Nat
  base : String
  deriving DecidableEq

structure Catalog where
  max_retained_files : Nat
  collection : List CatItem
  active_index : Option Nat
  deriving DecidableEq

/-- `block_log_catalog::add(start_block_num, end_block_num, filename_base)`:
evict from the front when at capacity (adjusting `active_index`), then record
the new segment unless `max_retained_files == 0`. -/
def catalog_add (c : Catalog) (start_block_num end_block_num : Nat) (base : String) :
    Catalog :=
  let c1 :=
    if c.max_retained_files ≤ c.collection.length then
      let items_to_erase :=
        if 0 < c.max_retained_files then c.collection.length - c.max_retained_files + 1
        else c.collection.length
      { c with collection := c.collection.drop items_to_erase,
               active_index :=
                 match c.active_index with
                 | none => none
                 | some i => if i < items_to_erase then none else some (i - items_to_erase) }
    else c
  if 0 < c.max_retained_files then
    { c1 with collection := c1.collection ++ [⟨start_block_num, end_block_num, base⟩] }
  else c1

/-- Index of `--collection.upper_bound(block_num)` in a `first`-sorted list:
the last entry whose `first` is at most `block_num`, `none` when
`block_num < collection.begin()->first` or the list is empty. -/
def lastLEIdx (l : List CatItem) (block_num : Nat) : Option Nat :=
  match l with
  | [] => none
  | x :: xs =>
    if block_num < x.first then none
    else
      match lastLEIdx xs block_num with
      | some i => some (i + 1)
      | none => some 0

/-- `block_log_catalog::set_active_item(block_num)`: reuse a bound segment
that covers the number, else search the map; file opens always succeed in the
model (their failure path only unbinds and returns false). -/
def set_active_item (c : Catalog) (block_num : Nat) : Catalog × Bool :=
  let active_covers :=
    match c.active_index with
    | some i =>
      match c.collection.get? i with
      | some item => decide (item.first ≤ block_num) && decide (block_num ≤ item.last)
      | none => false
    | none => false
  if active_covers then (c, true)
  else if c.collection = [] then (c, false)
  else
    match lastLEIdx c.collection block_num with
    | none => (c, false)
    | some i =>
      match c.collection.get? i with
      | some item =>
        if block_num ≤ item.last then ({ c with active_index := some i }, true)
        else (c, false)
      | none => (c, false)

/-- The state `block_log_impl` holds: the live files (`log` bytes and `index`
position list), head block number, preamble, stride, catalog, and the names
of files produced by rotation renames. -/
structure LogState where
  genesis_written : Bool
  preamble : Preamble
  log : List Nat
  index : List Nat
  head : Option Nat
  stride : Nat
  catalog : Catalog
  rotatedFiles : List String
  deriving DecidableEq

/-- `block_log_impl::split_log()`: rename the live files to
`blocks-<first_block_num>-<head>.{log,index}` (snprintf `%d`, decimal),
register the range in the catalog, truncate both live files, and write a new
preamble with `version = max_supported_version`,
`first_block_num = head + 1`, and the chain-id context.  `split_log` is only
invoked by `append` right after `head` is set, so the `none` branch is
unreachable there. -/
def split_log (encPre : Preamble → List Nat) (s : LogState) : LogState :=
  match s.head with
  | none => s
  | some headNum =>
    let base := "blocks-" ++ toString s.preamble.first_block_num ++ "-" ++ toString headNum
    let catalog' := catalog_add s.catalog s.preamble.first_block_num headNum base
    let preamble' : Preamble :=
      { version := max_supported_version,
        first_block_num := headNum + 1,
        chain_context := ChainCtxKind.chainId }
    { s with
      catalog := catalog',
      rotatedFiles := s.rotatedFiles ++ [base ++ ".log", base ++ ".index"],
      preamble := preamble',
      log := encPre preamble',
      index := [] }

/-- `block_log_impl::append(b, compression)`: require the genesis written;
require the index write position (its size, after `seek_end(0)`) to be
`8 * (block_num - first_block_num)` in `uint32_t` arithmetic; then
`write_log_entry` (entry bytes, trailing position, index position), set the
head, and rotate when `block_num % stride == 0`.  Errors return the state
unchanged, as the throws precede every write. -/
def block_log_append (encPre : Preamble → List Nat) (s : LogState) (block_num : Nat)
    (entryBytes : List Nat) : LogState × Except BLErr Nat :=
  if s.genesis_written = false then (s, .error .appendBeforeReset)
  else if 8 * s.index.length ≠ 8 * u32sub block_num s.preamble.first_block_num then
    (s, .error .indexDesync)
  else
    let pos := s.log.length
    let s1 := { s with
                log := s.log ++ entryBytes ++ u64le pos,
                index := s.index ++ [pos],
                head := some block_num }
    if block_num % s.stride = 0 then (split_log encPre s1, .ok pos)
    else (s1, .ok pos)

/-- `block_log_impl::get_block_pos(block_num)`: `npos` when the number is not
in the live range `[first_block_num, head]`; otherwise the `uint64_t` of the
live index at slot `block_num - first_block_num` (a slot beyond the index,
which the class invariant rules out, is modelled as `npos`). -/
def get_block_pos (s : LogState) (block_num : Nat) : Nat :=
  match s.head with
  | none => npos
  | some h =>
    if block_num ≤ h ∧ s.preamble.first_block_num ≤ block_num then
      (s.index.get? (block_num - s.preamble.first_block_num)).getD npos
    else npos

/-- `block_log_impl::read_block_id_by_num(block_num)`: block ids are abstract
(`Nat`, `0` = the default-constructed empty id).  The in-range decodes are the
chain-layer reads `readIdLive` / `readIdCat`; outside both ranges the function
returns the default-constructed id.  (The catalog binding mutation of
`set_active_item` does not affect the returned id and is dropped here.) -/
def read_block_id_by_num (readIdLive : Nat → Except BLErr Nat)
    (readIdCat : Nat → Except BLErr Nat) (s : LogState) (block_num : Nat) :
    Except BLErr Nat :=
  let pos := get_block_pos s block_num
  if pos ≠ npos then readIdLive pos
  else if (set_active_item s.catalog block_num).2 then readIdCat block_num
  else .ok 0

/-- `block_log::first_block_num()`: the catalog's first (smallest-key) entry
when the catalog is nonempty, else the live preamble's `first_block_num`. -/
def block_log_first_block_num (s : LogState) : Nat :=
  match s.catalog.collection with
  | [] => s.preamble.first_block_num
  | item :: _ => item.first

/-! ## Concrete instances used by counterexamples and witnesses -/

def sNoGenesis : LogState :=
  { genesis_written := false,
    preamble := { version := 4, first_block_num := 1, chain_context := ChainCtxKind.genesisState },
    log := [], index := [], head := none, stride := 1000,
    catalog := { max_retained_files := 10, collection := [], active_index := none },
    rotatedFiles := [] }

def sMaxZero : LogState :=
  { genesis_written := true,
    preamble := { version := 4, first_block_num := 1, chain_context := ChainCtxKind.genesisState },
    log := [], index := [0], head := some 1, stride := 2,
    catalog := { max_retained_files := 0, collection := [], active_index := none },
    rotatedFiles := [] }

def sRotate : LogState :=
  { genesis_written := true,
    preamble := { version := 4, first_block_num := 1, chain_context := ChainCtxKind.genesisState },
    log := [], index := [0], head := some 1, stride := 2,
    catalog := { max_retained_files := 10, collection := [], active_index := none },
    rotatedFiles := [] }

def sOut : LogState :=
  { genesis_written := true,
    preamble := { version := 4, first_block_num := 5, chain_context := ChainCtxKind.chainId },
    log := [], index := [], head := none, stride := 1000,
    catalog := { max_retained_files := 10,
                 collection := [{ first := 1, last := 4, base := "blocks-1-4" }],
                 active_index := none },
    rotatedFiles := [] }

def sCat : LogState :=
  { genesis_written := true,
    preamble := { version := 4, first_block_num := 8, chain_context := ChainCtxKind.chainId },
    log := [], index := [], head := none, stride := 1000,
    catalog := { max_retained_files := 10,
                 collection := [{ first := 3, last := 7, base := "blocks-3-7" }],
                 active_index := none },
    rotatedFiles := [] }

def bsC6 : ByteStream := ⟨[14, 0, 0, 0, 0, 9, 9, 9], 0⟩

def blockUnpackC6 : ByteStream → Except BLErr ByteStream :=
  fun t => Except.ok ⟨t.data, t.pos + 1⟩

def packBlockW : List TrxReceipt → Nat → List Nat := fun _ n => List.replicate n 0

def fileW : List Nat := List.replicate 20 1

def blockW : List TrxReceipt := [TrxReceipt.packed ⟨7, true⟩]

/-! ## Theorems for the claims -/

/-- C1: the claim says `index_matches_data` is true iff the index exists, its
size divided by 8 equals the log's `num_blocks`, and its last 8 bytes equal
`last_block_position`.  The source instead tests `file_size / 8 !=
log.num_blocks()` before the trailing-bytes comparison, so a fully consistent
one-block index (`idxOne` for `logOne`: size 8, one slot, trailing bytes equal
to the last block position) is reported as NOT matching, while a 16-byte index
of the wrong length whose trailing bytes happen to match is reported as
matching.  This contradicts the function's own name and its comment "check if
index file matches the log file": the claim is right and the code inverted the
size comparison. -/
theorem C1_index_matches_data_inverted :
    idxOne.length / 8 = 1 ∧ num_blocks logOne = some 1 ∧
    readU64LE idxOne (idxOne.length - 8) = last_block_position logOne ∧
    index_matches_data (some idxOne) logOne = some false ∧
    index_matches_data (some (idxOne ++ idxOne)) logOne = some true := by
  decide

/-- C5 counterexample: version 2 with `first_block_num = 2` is a supported
combination for which the claim prescribes `MalformedPreamble` (neither "v1",
"v≥2 with first=1", nor "v≥3 with first>1" applies), but the source decodes a
genesis state, because `contains_genesis_state` accepts every version below 3
regardless of `first_block_num`. -/
theorem C5_chain_context_counterexample :
    is_supported_version 2 = true ∧
    read_chain_context 2 2 = Except.ok ChainCtxKind.genesisState ∧
    read_chain_context_claim 2 2 = Except.error BLErr.malformedPreamble :=
  ⟨rfl, rfl, rfl⟩

/-- C5 (amended): for every supported version `v ∈ [1,4]`, the chain context
decodes as Genesis exactly when `v < 3` or `first_block_num = 1`, as ChainId
exactly when `v ≥ 3` and `first_block_num > 1`, and fails with
`MalformedPreamble` exactly when `v ≥ 3` and `first_block_num = 0`. -/
theorem C5_chain_context_amended (v fbn : Nat) (hlo : 1 ≤ v) (hhi : v ≤ 4) :
    (read_chain_context v fbn = Except.ok ChainCtxKind.genesisState ↔
      (v < 3 ∨ fbn = 1)) ∧
    (read_chain_context v fbn = Except.ok ChainCtxKind.chainId ↔
      (3 ≤ v ∧ 1 < fbn)) ∧
    (read_chain_context v fbn = Except.error BLErr.malformedPreamble ↔
      (3 ≤ v ∧ fbn = 0)) := by
  have hv0 : ¬ v = 0 := by omega
  have hsup : is_supported_version v = true := by
    simp only [is_supported_version, clampNat, min_supported_version, max_supported_version,
      initial_version, pruned_transaction_version, beq_iff_eq]
    split_ifs <;> omega
  by_cases hc0 : 3 ≤ v <;> by_cases hc1 : v < 3 <;> by_cases hc2 : fbn = 1 <;>
    by_cases hc3 : 1 < fbn <;>
    simp_all [read_chain_context, contains_genesis_state, contains_chain_id,
      genesis_state_or_chain_id_version] <;>
    (first
      | omega
      | (split_ifs <;> simp_all <;> omega))

/-- C5 witness: the amended theorem instantiated at `v = 3`,
`first_block_num = 0`, the one supported combination that is malformed. -/
theorem C5_chain_context_witness :
    (1 ≤ 3 ∧ 3 ≤ 4) ∧
    ((read_chain_context 3 0 = Except.ok ChainCtxKind.genesisState ↔
       (3 < 3 ∨ 0 = 1)) ∧
     (read_chain_context 3 0 = Except.ok ChainCtxKind.chainId ↔
       (3 ≤ 3 ∧ 1 < 0)) ∧
     (read_chain_context 3 0 = Except.error BLErr.malformedPreamble ↔
       (3 ≤ 3 ∧ 0 = 0))) :=
  ⟨by decide, C5_chain_context_amended 3 0 (by decide) (by decide)⟩

/-- C4: `recover_from_incomplete_block_head` returns true — and then the log
is resized to `index.back + entry_size`, where `entry_size` is the `uint32_t`
stored at `index.back` — exactly when the version is at least 4, the log size
exceeds `index.back + 4`, the log size exceeds the trimmed size, and the
entry at `index.back` light-validates against block number
`first_block_num + index.len - 1`; in every other case it returns false and
the log file keeps its size. -/
theorem C4_recover_from_incomplete_head_iff (d : BlockLogData) (index : List Nat) :
    ((recover_from_incomplete_block_head d index).1 = true ↔
      (pruned_transaction_version ≤ d.version ∧
       index.getLastD 0 + 4 < d.data.length ∧
       index.getLastD 0 + readU32LE d.data (index.getLastD 0) < d.data.length ∧
       light_validate_block_entry_at d (index.getLastD 0)
         (d.first_block_num + index.length - 1) = true)) ∧
    ((recover_from_incomplete_block_head d index).1 = true →
      (recover_from_incomplete_block_head d index).2 =
        index.getLastD 0 + readU32LE d.data (index.getLastD 0)) ∧
    ((recover_from_incomplete_block_head d index).1 = false →
      (recover_from_incomplete_block_head d index).2 = d.data.length) := by
  unfold recover_from_incomplete_block_head
  dsimp only
  split_ifs with h1 h2 h3 h4 <;> simp_all

/-- C8 counterexample: for the one-block log `logOne` (blocks 5..5) with its
consistent index `[10]`, trimming at `n = 5` is neither the `n < first`
case (status 1) nor the `n > last` case (status 2), so the claim prescribes
status 0 with a resize to the position stored at index slot
`n + 1 - first = 1` — but that slot is one past the end of the one-slot
index: the source reads out of bounds (modelled `none`), not a stored
position. -/
theorem C8_trim_end_counterexample :
    logOne.first_block_num ≤ 5 ∧ last_block_num logOne = some 5 ∧
    trim_blocklog_end logOne [10] 5 = none := by
  decide

/-- C8 (amended): with the archive invariant `num_blocks = index.len` and a
nonempty log, `trim_blocklog_end` returns 1 when `n < first_block_num`,
2 when `first_block_num ≤ n` and `n > last_block_num`, and for
`first_block_num ≤ n < last_block_num` returns 0 after resizing the log to
the position stored at index slot `n + 1 - first_block_num` and the index to
`(n + 1 - first_block_num) * 8` bytes; at `n = last_block_num` the source
reads one slot past the index (undefined behaviour). -/
theorem C8_trim_end_amended (d : BlockLogData) (index : List Nat) (n last : Nat)
    (hlast : last_block_num d = some last)
    (harch : num_blocks d = some index.length)
    (hne : d.first_block_pos ≠ d.data.length) :
    (n < d.first_block_num →
      trim_blocklog_end d index n = some (1, d.data.length, 8 * index.length)) ∧
    (d.first_block_num ≤ n → last < n →
      trim_blocklog_end d index n = some (2, d.data.length, 8 * index.length)) ∧
    (d.first_block_num ≤ n → n < last →
      ∃ pos, index.get? (n + 1 - d.first_block_num) = some pos ∧
        trim_blocklog_end d index n =
          some (0, pos, 8 * (n + 1 - d.first_block_num))) := by
  have hlen : index.length = last - d.first_block_num + 1 := by
    rw [num_blocks, if_neg hne, hlast] at harch
    simp only [Option.map_some', Option.some.injEq] at harch
    omega
  refine ⟨?_, ?_, ?_⟩
  · intro h
    simp [trim_blocklog_end, hlast, h]
  · intro h1 h2
    have hn : ¬ n < d.first_block_num := by omega
    simp [trim_blocklog_end, hlast, hn, h2]
  · intro h1 h2
    have hn : ¬ n < d.first_block_num := by omega
    have hn2 : ¬ last < n := by omega
    have hslot : n + 1 - d.first_block_num < index.length := by omega
    refine ⟨index.get ⟨n + 1 - d.first_block_num, hslot⟩, ?_, ?_⟩
    · exact List.get?_eq_get hslot
    · simp [trim_blocklog_end, hlast, hn, hn2, List.getElem?_eq_getElem hslot]

/-- C8 witness: the amended theorem at `logOne`, index `[10]`, `n = 4`
(below the first block 5, so status 1). -/
theorem C8_trim_end_witness :
    (last_block_num logOne = some 5 ∧
     num_blocks logOne = some ([(10 : Nat)].length) ∧
     logOne.first_block_pos ≠ logOne.data.length) ∧
    ((4 < logOne.first_block_num →
       trim_blocklog_end logOne [10] 4 =
         some (1, logOne.data.length, 8 * ([(10 : Nat)].length))) ∧
     (logOne.first_block_num ≤ 4 → 5 < 4 →
       trim_blocklog_end logOne [10] 4 =
         some (2, logOne.data.length, 8 * ([(10 : Nat)].length))) ∧
     (logOne.first_block_num ≤ 4 → 4 < 5 →
       ∃ pos, ([(10 : Nat)]).get? (4 + 1 - logOne.first_block_num) = some pos ∧
         trim_blocklog_end logOne [10] 4 =
           some (0, pos, 8 * (4 + 1 - logOne.first_block_num)))) :=
  ⟨by decide, C8_trim_end_amended logOne [10] 4 5 (by decide) (by decide) (by decide)⟩

theorem u32sub_eq_sub {a b : Nat} (hba : b ≤ a) (ha : a < 2 ^ 32) : u32sub a b = a - b := by
  unfold u32sub
  have h1 : a % 2 ^ 32 = a := Nat.mod_eq_of_lt ha
  have h2 : b % 2 ^ 32 = b := Nat.mod_eq_of_lt (by omega)
  rw [h1, h2]
  have h3 : a + 2 ^ 32 - b = 2 ^ 32 + (a - b) := by omega
  rw [h3, Nat.add_mod_left]
  exact Nat.mod_eq_of_lt (by omega)

theorem C3_append_error_cases (encPre : Preamble → List Nat) (s : LogState)
    (block_num : Nat) (entryBytes : List Nat)
    (hfb : s.preamble.first_block_num ≤ block_num) (h32 : block_num < 2 ^ 32) :
    (s.genesis_written = false →
      block_log_append encPre s block_num entryBytes =
        (s, Except.error BLErr.appendBeforeReset)) ∧
    (s.genesis_written = true →
      8 * s.index.length ≠ 8 * (block_num - s.preamble.first_block_num) →
      block_log_append encPre s block_num entryBytes =
        (s, Except.error BLErr.indexDesync)) := by
  constructor
  · intro hg
    simp [block_log_append, hg]
  · intro hg hne
    rw [block_log_append]
    simp [hg, u32sub_eq_sub hfb h32, hne]

theorem C3_append_error_witness :
    (sNoGenesis.preamble.first_block_num ≤ 1 ∧ 1 < 2 ^ 32) ∧
    ((sNoGenesis.genesis_written = false →
       block_log_append (fun _ => []) sNoGenesis 1 [] =
         (sNoGenesis, Except.error BLErr.appendBeforeReset)) ∧
     (sNoGenesis.genesis_written = true →
       8 * sNoGenesis.index.length ≠ 8 * (1 - sNoGenesis.preamble.first_block_num) →
       block_log_append (fun _ => []) sNoGenesis 1 [] =
         (sNoGenesis, Except.error BLErr.indexDesync))) :=
  ⟨⟨by decide, by decide⟩,
   C3_append_error_cases (fun _ => []) sNoGenesis 1 [] (by decide) (by decide)⟩

theorem C7_rotation_counterexample :
    (block_log_append (fun _ => []) sMaxZero 2 []).1.rotatedFiles =
      ["blocks-1-2.log", "blocks-1-2.index"] ∧
    (block_log_append (fun _ => []) sMaxZero 2 []).1.preamble =
      { version := 4, first_block_num := 3, chain_context := ChainCtxKind.chainId } ∧
    (block_log_append (fun _ => []) sMaxZero 2 []).1.catalog.collection = [] :=
  ⟨rfl, rfl, rfl⟩

theorem C7_rotation_amended (encPre : Preamble → List Nat) (s : LogState)
    (block_num : Nat) (entryBytes : List Nat)
    (hg : s.genesis_written = true)
    (hidx : s.index.length = u32sub block_num s.preamble.first_block_num) :
    (block_num % s.stride = 0 →
      (block_log_append encPre s block_num entryBytes).2 = Except.ok s.log.length ∧
      (block_log_append encPre s block_num entryBytes).1.rotatedFiles =
        s.rotatedFiles ++
          ["blocks-" ++ toString s.preamble.first_block_num ++ "-" ++ toString block_num ++ ".log",
           "blocks-" ++ toString s.preamble.first_block_num ++ "-" ++ toString block_num ++ ".index"] ∧
      (block_log_append encPre s block_num entryBytes).1.preamble =
        { version := max_supported_version, first_block_num := block_num + 1,
          chain_context := ChainCtxKind.chainId } ∧
      (0 < s.catalog.max_retained_files →
        (⟨s.preamble.first_block_num, block_num,
          "blocks-" ++ toString s.preamble.first_block_num ++ "-" ++ toString block_num⟩ : CatItem) ∈
          (block_log_append encPre s block_num entryBytes).1.catalog.collection)) ∧
    (block_num % s.stride ≠ 0 →
      (block_log_append encPre s block_num entryBytes).1.preamble = s.preamble ∧
      (block_log_append encPre s block_num entryBytes).1.rotatedFiles = s.rotatedFiles ∧
      (block_log_append encPre s block_num entryBytes).1.catalog = s.catalog) := by
  have hcond : ¬ 8 * s.index.length ≠ 8 * u32sub block_num s.preamble.first_block_num := by
    rw [hidx]
    omega
  constructor
  · intro hs
    have happ : block_log_append encPre s block_num entryBytes =
        (split_log encPre
          { s with log := s.log ++ entryBytes ++ u64le s.log.length,
                   index := s.index ++ [s.log.length],
                   head := some block_num },
         Except.ok s.log.length) := by
      rw [block_log_append, if_neg (by simp [hg]), if_neg hcond]
      dsimp only
      rw [if_pos hs]
    rw [happ]
    dsimp only [split_log]
    refine ⟨rfl, rfl, rfl, ?_⟩
    intro hmax
    dsimp only [catalog_add]
    rw [if_pos hmax]
    split_ifs <;> simp
  · intro hs
    have happ : block_log_append encPre s block_num entryBytes =
        ({ s with log := s.log ++ entryBytes ++ u64le s.log.length,
                  index := s.index ++ [s.log.length],
                  head := some block_num },
         Except.ok s.log.length) := by
      rw [block_log_append, if_neg (by simp [hg]), if_neg hcond]
      dsimp only
      rw [if_neg hs]
    rw [happ]
    exact ⟨rfl, rfl, rfl⟩

theorem C7_rotation_witness :
    (sRotate.genesis_written = true ∧
     sRotate.index.length = u32sub 2 sRotate.preamble.first_block_num) ∧
    ((2 % sRotate.stride = 0 →
       (block_log_append (fun _ => []) sRotate 2 []).2 = Except.ok sRotate.log.length ∧
       (block_log_append (fun _ => []) sRotate 2 []).1.rotatedFiles =
         sRotate.rotatedFiles ++
           ["blocks-" ++ toString sRotate.preamble.first_block_num ++ "-" ++ toString 2 ++ ".log",
            "blocks-" ++ toString sRotate.preamble.first_block_num ++ "-" ++ toString 2 ++ ".index"] ∧
       (block_log_append (fun _ => []) sRotate 2 []).1.preamble =
         { version := max_supported_version, first_block_num := 2 + 1,
           chain_context := ChainCtxKind.chainId } ∧
       (0 < sRotate.catalog.max_retained_files →
         (⟨sRotate.preamble.first_block_num, 2,
           "blocks-" ++ toString sRotate.preamble.first_block_num ++ "-" ++ toString 2⟩ : CatItem) ∈
           (block_log_append (fun _ => []) sRotate 2 []).1.catalog.collection)) ∧
     (2 % sRotate.stride ≠ 0 →
       (block_log_append (fun _ => []) sRotate 2 []).1.preamble = sRotate.preamble ∧
       (block_log_append (fun _ => []) sRotate 2 []).1.rotatedFiles = sRotate.rotatedFiles ∧
       (block_log_append (fun _ => []) sRotate 2 []).1.catalog = sRotate.catalog)) :=
  ⟨⟨rfl, by decide⟩, C7_rotation_amended (fun _ => []) sRotate 2 [] rfl (by decide)⟩

theorem C10_first_block_num_catalog (encPre : Preamble → List Nat) (s : LogState)
    (block_num : Nat) (entryBytes : List Nat) :
    (s.catalog.collection = [] → block_log_first_block_num s = s.preamble.first_block_num) ∧
    (∀ item rest, s.catalog.collection = item :: rest →
      block_log_first_block_num s = item.first) ∧
    (s.genesis_written = true →
      s.index.length = u32sub block_num s.preamble.first_block_num →
      block_num % s.stride = 0 →
      0 < s.catalog.max_retained_files →
      s.catalog.collection = [] →
      s.preamble.first_block_num ≤ block_num →
      block_log_first_block_num (block_log_append encPre s block_num entryBytes).1 =
          s.preamble.first_block_num ∧
        (block_log_append encPre s block_num entryBytes).1.preamble.first_block_num =
          block_num + 1 ∧
        block_log_first_block_num (block_log_append encPre s block_num entryBytes).1 ≠
          (block_log_append encPre s block_num entryBytes).1.preamble.first_block_num) := by
  refine ⟨?_, ?_, ?_⟩
  · intro h
    rw [block_log_first_block_num, h]
  · intro item rest h
    rw [block_log_first_block_num, h]
  · intro hg hidx hs hmax hempty hfb
    have hcond : ¬ 8 * s.index.length ≠ 8 * u32sub block_num s.preamble.first_block_num := by
      rw [hidx]
      omega
    have happ : block_log_append encPre s block_num entryBytes =
        (split_log encPre
          { s with log := s.log ++ entryBytes ++ u64le s.log.length,
                   index := s.index ++ [s.log.length],
                   head := some block_num },
         Except.ok s.log.length) := by
      rw [block_log_append, if_neg (by simp [hg]), if_neg hcond]
      dsimp only
      rw [if_pos hs]
    have hmax0 : ¬ s.catalog.max_retained_files ≤ 0 := by omega
    rw [happ]
    simp [split_log, catalog_add, block_log_first_block_num, hempty, hmax0, hmax]
    omega

theorem lastLEIdx_spec :
    ∀ (l : List CatItem) (b i : Nat), lastLEIdx l b = some i →
      ∃ item, l.get? i = some item ∧ item.first ≤ b := by
  intro l
  induction l with
  | nil =>
    intro b i h
    simp [lastLEIdx] at h
  | cons x xs ih =>
    intro b i h
    rw [lastLEIdx] at h
    by_cases hb : b < x.first
    · simp [hb] at h
    · rw [if_neg hb] at h
      rcases hx : lastLEIdx xs b with _ | j
      · rw [hx] at h
        simp at h
        subst h
        exact ⟨x, rfl, by omega⟩
      · rw [hx] at h
        simp at h
        subst h
        obtain ⟨item, hit, hle⟩ := ih b j hx
        exact ⟨item, by simpa using hit, hle⟩

theorem set_active_item_false (c : Catalog) (block_num : Nat)
    (hB : ∀ item ∈ c.collection, ¬ (item.first ≤ block_num ∧ block_num ≤ item.last)) :
    (set_active_item c block_num).2 = false := by
  have hcov : ∀ item : CatItem, item ∈ c.collection →
      (decide (item.first ≤ block_num) && decide (block_num ≤ item.last)) = false := by
    intro item hmem
    have hB' := hB item hmem
    by_cases h1 : item.first ≤ block_num
    · have h2 : ¬ block_num ≤ item.last := fun h2 => hB' ⟨h1, h2⟩
      simp [h2]
    · simp [h1]
  rw [set_active_item]
  have hactive :
      (match c.active_index with
       | some i =>
         match c.collection.get? i with
         | some item => decide (item.first ≤ block_num) && decide (block_num ≤ item.last)
         | none => false
       | none => false) = false := by
    rcases c.active_index with _ | i
    · rfl
    · dsimp only
      rcases hg : c.collection.get? i with _ | item
      · rfl
      · exact hcov item (List.get?_mem hg)
  rw [hactive, if_neg (by simp : ¬ false = true)]
  by_cases hemp : c.collection = []
  · rw [if_pos hemp]
  · rw [if_neg hemp]
    rcases hl : lastLEIdx c.collection block_num with _ | i
    · rfl
    · dsimp only
      obtain ⟨item, hit, hle⟩ := lastLEIdx_spec c.collection block_num i hl
      rw [hit]
      dsimp only
      have hlast : ¬ block_num ≤ item.last := by
        have := hB item (List.get?_mem hit)
        omega
      rw [if_neg hlast]

theorem C9_read_block_id_out_of_range (readIdLive readIdCat : Nat → Except BLErr Nat)
    (s : LogState) (block_num : Nat)
    (hlive : s.head = none ∨
      ∃ h, s.head = some h ∧ (h < block_num ∨ block_num < s.preamble.first_block_num))
    (hcat : ∀ item ∈ s.catalog.collection,
      ¬ (item.first ≤ block_num ∧ block_num ≤ item.last)) :
    read_block_id_by_num readIdLive readIdCat s block_num = Except.ok 0 := by
  have hpos : get_block_pos s block_num = npos := by
    rcases hlive with h | ⟨h, hh, hor⟩
    · simp [get_block_pos, h]
    · rw [get_block_pos, hh]
      have hno : ¬ (block_num ≤ h ∧ s.preamble.first_block_num ≤ block_num) := by omega
      simp [hno]
  have hactive : (set_active_item s.catalog block_num).2 = false :=
    set_active_item_false s.catalog block_num hcat
  rw [read_block_id_by_num]
  simp [hpos, hactive]

theorem C9_read_block_id_witness :
    ((sOut.head = none ∨
       ∃ h, sOut.head = some h ∧ (h < 9 ∨ 9 < sOut.preamble.first_block_num)) ∧
     (∀ item ∈ sOut.catalog.collection, ¬ (item.first ≤ 9 ∧ 9 ≤ item.last))) ∧
    read_block_id_by_num (fun _ => Except.error BLErr.malformedEntry)
      (fun _ => Except.error BLErr.malformedEntry) sOut 9 = Except.ok 0 :=
  ⟨⟨Or.inl rfl, by decide⟩,
   C9_read_block_id_out_of_range (fun _ => Except.error BLErr.malformedEntry)
     (fun _ => Except.error BLErr.malformedEntry) sOut 9 (Or.inl rfl) (by decide)⟩

/-- C6: decoding a v4 entry fails whenever the compression tag is not `none`
(0); with `none` compression and a block decode consuming
`s3.pos - s.pos` bytes from the entry start, it fails with `MalformedEntry`
exactly when `size - 8` minus those consumed bytes is negative, and otherwise
skips exactly that many bytes so the cursor lands at `entry_start + size - 8`,
the trailing back-pointer. -/
theorem C6_unpack_v4_compression_and_skip
    (blockUnpack : ByteStream → Except BLErr ByteStream) (s s1 s2 s3 : ByteStream)
    (size compression : Nat)
    (h32 : bsReadU32 s = some (size, s1))
    (h8 : bsReadU8 s1 = some (compression, s2))
    (hblk : blockUnpack s2 = Except.ok s3)
    (hpos : s.pos ≤ s3.pos) (hdata : s3.data = s.data) :
    (compression ≠ cf_compression_none →
      unpack_log_entry_v4_meta blockUnpack s = Except.error BLErr.malformedEntry) ∧
    (compression = cf_compression_none →
      ((size < 8 + (s3.pos - s.pos) →
         unpack_log_entry_v4_meta blockUnpack s = Except.error BLErr.malformedEntry) ∧
       (8 + (s3.pos - s.pos) ≤ size → s.pos + size - 8 ≤ s.data.length →
         ∃ m s4, unpack_log_entry_v4_meta blockUnpack s = Except.ok (m, s4) ∧
           m.size = size ∧ m.compression = compression ∧
           s4.pos = s.pos + size - 8 ∧ s4.data = s.data))) := by
  rw [unpack_log_entry_v4_meta]
  rw [h32]
  dsimp only
  rw [h8]
  dsimp only
  constructor
  · intro hcne
    by_cases hcnt : cf_compression_type_count ≤ compression
    · rw [if_pos hcnt]
    · rw [if_neg hcnt, if_pos hcne]
  · intro hc0
    have hcnt : ¬ cf_compression_type_count ≤ compression := by
      rw [hc0]
      decide
    rw [if_neg hcnt, if_neg (by simp [hc0])]
    rw [hblk]
    dsimp only
    constructor
    · intro hneg
      rw [if_pos (by omega : (size : Int) - 8 - ((s3.pos - s.pos : Nat) : Int) < 0)]
    · intro hge hbound
      rw [if_neg (by omega : ¬ (size : Int) - 8 - ((s3.pos - s.pos : Nat) : Int) < 0)]
      have htn : ((size : Int) - 8 - ((s3.pos - s.pos : Nat) : Int)).toNat =
          size - 8 - (s3.pos - s.pos) := by omega
      rw [htn]
      have hskip : bsSkip s3 (size - 8 - (s3.pos - s.pos)) =
          some ⟨s3.data, s3.pos + (size - 8 - (s3.pos - s.pos))⟩ := by
        rw [bsSkip, if_pos (by rw [hdata]; omega)]
      rw [hskip]
      dsimp only
      refine ⟨⟨compression, size⟩, _, rfl, rfl, rfl, ?_, hdata⟩
      dsimp only
      omega

/-- C6 witness: a concrete entry with `size = 14`, compression 0, whose block
decode consumes 1 byte; the cursor ends at offset `6 = 0 + 14 - 8`. -/
theorem C6_unpack_witness :
    (bsReadU32 bsC6 = some (14, ⟨bsC6.data, 4⟩) ∧
     bsReadU8 ⟨bsC6.data, 4⟩ = some (0, ⟨bsC6.data, 5⟩) ∧
     blockUnpackC6 ⟨bsC6.data, 5⟩ = Except.ok ⟨bsC6.data, 6⟩ ∧
     bsC6.pos ≤ (⟨bsC6.data, 6⟩ : ByteStream).pos ∧
     (⟨bsC6.data, 6⟩ : ByteStream).data = bsC6.data) ∧
    ((0 ≠ cf_compression_none →
       unpack_log_entry_v4_meta blockUnpackC6 bsC6 = Except.error BLErr.malformedEntry) ∧
     (0 = cf_compression_none →
       ((14 < 8 + ((⟨bsC6.data, 6⟩ : ByteStream).pos - bsC6.pos) →
          unpack_log_entry_v4_meta blockUnpackC6 bsC6 = Except.error BLErr.malformedEntry) ∧
        (8 + ((⟨bsC6.data, 6⟩ : ByteStream).pos - bsC6.pos) ≤ 14 →
          bsC6.pos + 14 - 8 ≤ bsC6.data.length →
          ∃ m s4, unpack_log_entry_v4_meta blockUnpackC6 bsC6 = Except.ok (m, s4) ∧
            m.size = 14 ∧ m.compression = 0 ∧
            s4.pos = bsC6.pos + 14 - 8 ∧ s4.data = bsC6.data)))) :=
  ⟨⟨rfl, rfl, rfl, by decide, rfl⟩,
   C6_unpack_v4_compression_and_skip blockUnpackC6 bsC6 ⟨bsC6.data, 4⟩ ⟨bsC6.data, 5⟩
     ⟨bsC6.data, 6⟩ 14 0 rfl rfl rfl (by decide) rfl⟩

theorem prunePass_length (txs : List TrxReceipt) :
    ∀ ids : List Nat, (prunePass txs ids).2.1.length + (prunePass txs ids).2.2 = ids.length := by
  induction txs with
  | nil =>
    intro ids
    simp [prunePass]
  | cons t rest ih =>
    intro ids
    cases t with
    | txid i =>
      simpa [prunePass] using ih ids
    | packed tx =>
      by_cases h : tx.id ∈ ids
      · have h1 := ih (ids.erase tx.id)
        have h2 := List.length_erase_of_mem h
        have h3 : 1 ≤ ids.length := List.length_pos.mpr (List.ne_nil_of_mem h)
        simp only [prunePass, if_pos h]
        omega
      · simpa [prunePass, h] using ih ids

theorem prunePass_packedIds (txs : List TrxReceipt) :
    ∀ ids : List Nat, packedIds (prunePass txs ids).1 = packedIds txs := by
  induction txs with
  | nil =>
    intro ids
    simp [prunePass]
  | cons t rest ih =>
    intro ids
    cases t with
    | txid i =>
      simpa [prunePass, packedIds] using ih ids
    | packed tx =>
      by_cases h : tx.id ∈ ids
      · simp only [prunePass, if_pos h, packedIds, pruneAll]
        rw [ih (ids.erase tx.id)]
      · simp only [prunePass, if_neg h, packedIds]
        rw [ih ids]

theorem prunePass_disjoint (txs : List TrxReceipt) :
    ∀ ids : List Nat, (∀ t ∈ ids, t ∉ packedIds txs) →
      prunePass txs ids = (txs, ids, 0) := by
  induction txs with
  | nil =>
    intro ids _
    rfl
  | cons t rest ih =>
    intro ids h
    cases t with
    | txid i =>
      have hr := ih ids (fun t ht => h t ht)
      simp [prunePass, hr]
    | packed tx =>
      have hni : tx.id ∉ ids := fun hmem => (h tx.id hmem) (by simp [packedIds])
      have hrest : ∀ t ∈ ids, t ∉ packedIds rest := by
        intro t ht
        have hh := h t ht
        simp only [packedIds, List.mem_cons, not_or] at hh
        exact hh.2
      simp [prunePass, hni, ih ids hrest]

theorem prunePass_remaining (txs : List TrxReceipt) :
    ∀ ids : List Nat, ids.Nodup →
      (prunePass txs ids).2.1 = ids.filter (fun t => decide (t ∉ packedIds txs)) := by
  induction txs with
  | nil =>
    intro ids _
    simp [prunePass, packedIds]
  | cons t rest ih =>
    intro ids hnd
    cases t with
    | txid i =>
      simp only [prunePass, packedIds]
      exact ih ids hnd
    | packed tx =>
      by_cases h : tx.id ∈ ids
      · simp only [prunePass, if_pos h]
        rw [ih (ids.erase tx.id) (hnd.erase tx.id)]
        rw [hnd.erase_eq_filter tx.id, List.filter_filter]
        apply List.filter_congr
        intro t _
        by_cases h1 : t ∈ packedIds rest <;> by_cases h2 : t = tx.id <;>
          simp [packedIds, h1, h2]
      · simp only [prunePass, if_neg h]
        rw [ih ids hnd]
        apply List.filter_congr
        intro t ht
        have hne : t ≠ tx.id := fun he => h (he ▸ ht)
        by_cases h1 : t ∈ packedIds rest <;> simp [packedIds, h1, hne]

theorem writeAt_getElem?_lt (file buf : List Nat) (off i : Nat)
    (hoff : off ≤ file.length) (hi : i < off) :
    (writeAt file off buf)[i]? = file[i]? := by
  rw [writeAt]
  rw [List.append_assoc]
  rw [List.getElem?_append_left (by simp [Nat.min_eq_left hoff, hi])]
  exact List.getElem?_take_of_lt hi

theorem writeAt_getElem?_ge (file buf : List Nat) (off i : Nat)
    (hoff : off ≤ file.length) (hi : off + buf.length ≤ i) :
    (writeAt file off buf)[i]? = file[i]? := by
  rw [writeAt]
  rw [List.append_assoc]
  have hlt : (file.take off).length = off := by simp [Nat.min_eq_left hoff]
  rw [List.getElem?_append_right (by omega)]
  rw [List.getElem?_append_right (by simp [hlt]; omega)]
  rw [List.getElem?_drop]
  congr 1
  simp [hlt]
  omega

/-- C2: for a v4 entry at `pos` of size `entry_size` and a duplicate-free id
list, `prune_transactions` succeeds, rewrites only the payload region
`[pos + offset_to_block_start, pos + entry_size - 8)` — the entry's size
field and compression tag (bytes below `pos + offset_to_block_start`) and its
trailing back-pointer (bytes from `pos + entry_size - 8`) are unchanged —
returns the number of transactions actually pruned (the ids present among the
block's packed transactions), and a second call with the same block number
(hence the same, now pruned, stored block) and the same id vector (which the
first call mutated in place, `ids` being passed by reference) returns 0. -/
theorem C2_prune_transactions_frame_count_idempotent (ver : Nat) (file : List Nat)
    (pos entry_size : Nat) (block : List TrxReceipt) (ids : List Nat)
    (packBlock : List TrxReceipt → Nat → List Nat)
    (hver : pruned_transaction_version ≤ ver)
    (hpack : ∀ b n, (packBlock b n).length = n)
    (hsz : 13 ≤ entry_size)
    (hfit : pos + entry_size ≤ file.length)
    (hnd : ids.Nodup) :
    ∃ r, prune_transactions ver file pos entry_size block ids packBlock = Except.ok r ∧
      (∀ i, i < pos + offset_to_block_start ver → r.file[i]? = file[i]?) ∧
      (∀ i, pos + entry_size - 8 ≤ i → r.file[i]? = file[i]?) ∧
      r.count = (ids.filter (fun t => decide (t ∈ packedIds block))).length ∧
      (∃ r2, prune_transactions ver r.file pos entry_size r.block r.ids packBlock =
          Except.ok r2 ∧ r2.count = 0) := by
  have hoff : offset_to_block_start ver = 5 := by
    simp [offset_to_block_start, hver]
  have hnver : ¬ ver < pruned_transaction_version := by
    simp only [pruned_transaction_version] at hver ⊢
    omega
  have hlen := prunePass_length block ids
  have hrem := prunePass_remaining block ids hnd
  have hcount : (prunePass block ids).2.2 =
      (ids.filter (fun t => decide (t ∈ packedIds block))).length := by
    have h3 := List.length_eq_length_filter_add
      (l := ids) (fun t => decide (t ∈ packedIds block))
    have h4 : ids.filter (fun t => ! decide (t ∈ packedIds block)) =
        ids.filter (fun t => decide (t ∉ packedIds block)) := by
      apply List.filter_congr
      intro t _
      simp
    rw [h4] at h3
    rw [hrem] at hlen
    omega
  have hdisj : ∀ t ∈ (prunePass block ids).2.1, t ∉ packedIds (prunePass block ids).1 := by
    intro t ht
    rw [prunePass_packedIds]
    rw [hrem] at ht
    have := (List.mem_filter.mp ht).2
    simpa using this
  have hsecond := prunePass_disjoint (prunePass block ids).1 (prunePass block ids).2.1 hdisj
  rw [prune_transactions, if_neg hnver]
  dsimp only
  by_cases hc : 0 < (prunePass block ids).2.2
  · rw [if_pos hc]
    have hblen : (packBlock (prunePass block ids).1
        (entry_size - offset_to_block_start ver - 8)).length =
        entry_size - offset_to_block_start ver - 8 := hpack _ _
    refine ⟨_, rfl, ?_, ?_, ?_, ?_⟩
    · intro i hilt
      exact writeAt_getElem?_lt file _ (pos + offset_to_block_start ver) i
        (by omega) hilt
    · intro i hige
      apply writeAt_getElem?_ge file _ (pos + offset_to_block_start ver) i (by omega)
      rw [hblen]
      omega
    · exact hcount
    · rw [prune_transactions, if_neg hnver]
      dsimp only
      rw [hsecond]
      dsimp only
      rw [if_neg (by omega : ¬ (0 : Nat) < 0)]
      exact ⟨_, rfl, rfl⟩
  · rw [if_neg hc]
    refine ⟨_, rfl, fun i _ => rfl, fun i _ => rfl, hcount, ?_⟩
    rw [prune_transactions, if_neg hnver]
    dsimp only
    rw [hsecond]
    dsimp only
    rw [if_neg (by omega : ¬ (0 : Nat) < 0)]
    exact ⟨_, rfl, rfl⟩

/-- C2 witness: a one-transaction v4 entry at position 0, size 14, pruned with
the id list `[7]`. -/
theorem C2_prune_transactions_witness :
    (pruned_transaction_version ≤ 4 ∧
     (∀ b n, (packBlockW b n).length = n) ∧
     13 ≤ 14 ∧ 0 + 14 ≤ fileW.length ∧ ([7] : List Nat).Nodup) ∧
    (∃ r, prune_transactions 4 fileW 0 14 blockW [7] packBlockW = Except.ok r ∧
      (∀ i, i < 0 + offset_to_block_start 4 → r.file[i]? = fileW[i]?) ∧
      (∀ i, 0 + 14 - 8 ≤ i → r.file[i]? = fileW[i]?) ∧
      r.count = (([7] : List Nat).filter (fun t => decide (t ∈ packedIds blockW))).length ∧
      (∃ r2, prune_transactions 4 r.file 0 14 r.block r.ids packBlockW = Except.ok r2 ∧
        r2.count = 0)) :=
  ⟨⟨by decide, fun b n => by simp [packBlockW], by decide, by decide, by decide⟩,
   C2_prune_transactions_frame_count_idempotent 4 fileW 0 14 blockW [7] packBlockW
     (by decide) (fun b n => by simp [packBlockW]) (by decide) (by decide) (by decide)⟩

/-- C4 witness: `logOne` followed by three garbage bytes — an incomplete next
entry — with its one-slot index: all four conditions hold and the log is
resized to `10 + 31 = 41`. -/
theorem C4_recover_witness :
    ((recover_from_incomplete_block_head logTrim [10]).1 = true ↔
      (pruned_transaction_version ≤ logTrim.version ∧
       ([(10 : Nat)]).getLastD 0 + 4 < logTrim.data.length ∧
       ([(10 : Nat)]).getLastD 0 + readU32LE logTrim.data (([(10 : Nat)]).getLastD 0) <
         logTrim.data.length ∧
       light_validate_block_entry_at logTrim (([(10 : Nat)]).getLastD 0)
         (logTrim.first_block_num + ([(10 : Nat)]).length - 1) = true)) ∧
    ((recover_from_incomplete_block_head logTrim [10]).1 = true →
      (recover_from_incomplete_block_head logTrim [10]).2 =
        ([(10 : Nat)]).getLastD 0 + readU32LE logTrim.data (([(10 : Nat)]).getLastD 0)) ∧
    ((recover_from_incomplete_block_head logTrim [10]).1 = false →
      (recover_from_incomplete_block_head logTrim [10]).2 = logTrim.data.length) :=
  C4_recover_from_incomplete_head_iff logTrim [10]

/-- C10 witness: the catalog lookup at a nonempty catalog (`sCat`) and the
rotation consequence at `sRotate` (append of block 2 with stride 2). -/
theorem C10_first_block_num_witness :
    (block_log_first_block_num sCat = 3) ∧
    (block_log_first_block_num (block_log_append (fun _ => []) sRotate 2 []).1 =
        sRotate.preamble.first_block_num ∧
      (block_log_append (fun _ => []) sRotate 2 []).1.preamble.first_block_num = 2 + 1 ∧
      block_log_first_block_num (block_log_append (fun _ => []) sRotate 2 []).1 ≠
        (block_log_append (fun _ => []) sRotate 2 []).1.preamble.first_block_num) :=
  ⟨(C10_first_block_num_catalog (fun _ => []) sCat 0 []).2.1 ⟨3, 7, "blocks-3-7"⟩ [] rfl,
   (C10_first_block_num_catalog (fun _ => []) sRotate 2 []).2.2 rfl (by decide) rfl
     (by decide) rfl (by decide)⟩

end BlockLogSpec
